import Mathlib

/-!
Verification of the multi-format I/Q binary decoder (`iqdata.py`).

The Python class `IQData` is embedded shallowly: each format reader becomes a
Lean function over an explicit model of the file and of the mutable instance
state it touches.  Machine integers are modelled as `ℕ`/`ℤ`, floating-point
header values and scale factors as `ℚ` (exact decimal constants), and the
analytic IQT scale factor as `ℝ`.  File contents are total functions from
positions to byte/sample values; a read that stays inside the file (the only
case the claims quantify over) agrees with the partial real file.
-/

/-! ## TDMS reader (`read_tdms`, lines 129-205)

The TDMS container (parsed by the external `pyTDMS` module, which is not part
of this repository) is modelled at record granularity: the file is a stream of
records, record 1 occupying bytes `[0, first_rec_size)` and record `r ≥ 2`
occupying `[first_rec_size + (r-2)*other_rec_size, first_rec_size +
(r-1)*other_rec_size)`.  Parsing one segment at a record boundary appends that
record's `nSamplesPerRecord` int16 samples of each channel to the accumulated
raw data, exactly as `pyTDMS.readSegment` fills `raw_data`. -/

structure TdmsFile where
  nSamplesPerRecord : ℕ
  nRecordsPerFile : ℕ
  first_rec_size : ℕ
  other_rec_size : ℕ
  recI : ℕ → List ℤ
  recQ : ℕ → List ℤ
  gain : ℚ

/-- The mutable `IQData` fields that `read_tdms` touches: it assigns
`self.lframes`/`self.nframes` on entry and `self.scale`/`self.data_array`
on success.  `data_array` holds scaled complex samples as `(re, im)` pairs. -/
structure TdmsState where
  lframes : ℕ
  nframes : ℕ
  scale : ℚ
  data_array : Option (List (ℚ × ℚ))
deriving DecidableEq

/-- Line 143: `total_n_bytes = nframes * lframes` (a sample count). -/
def tdms_total_n_bytes (nframes lframes : ℕ) : ℕ := nframes * lframes

/-- Line 144: `start_n_bytes = (sframes - 1) * lframes`. -/
def tdms_start_n_bytes (lframes sframes : ℕ) : ℕ := (sframes - 1) * lframes

/-- Line 148: `start_record = int(start_n_bytes / nSamplesPerRecord) + 1`. -/
def tdms_start_record (lframes sframes spr : ℕ) : ℕ :=
  tdms_start_n_bytes lframes sframes / spr + 1

/-- Line 149: `starting_sample_within_start_record = start_n_bytes % spr`. -/
def tdms_start_within (lframes sframes spr : ℕ) : ℕ :=
  tdms_start_n_bytes lframes sframes % spr

/-- Line 152: `n_records = int((starting_sample_within_start_record +
total_n_bytes) / nSamplesPerRecord) + 1`. -/
def tdms_n_records (nframes lframes sframes spr : ℕ) : ℕ :=
  (tdms_start_within lframes sframes spr + tdms_total_n_bytes nframes lframes) / spr + 1

/-- Which record starts at byte position `pos`, and its byte size: record 1 at
position 0, record `2 + k` at `first + k * other`.  `none` models a position
that is not a segment boundary (never reached in the runs analysed here). -/
def segAt (first other pos : ℕ) : Option (ℕ × ℕ) :=
  if pos = 0 then some (1, first)
  else if first ≤ pos ∧ (pos - first) % other = 0 then
    some (2 + (pos - first) / other, other)
  else none

/-- The `while f.tell() < absolute_size` loop of lines 168-178: before parsing,
if `start_record > 1` and the position sits at the end of record 1, jump over
`start_record - 2` records; then parse one segment, appending its record.
`fuel` bounds the iteration count (the caller passes enough for the loop to
reach `absSize`, as proved below). -/
def tdmsLoop (recs : ℕ → List ℤ) (first other absSize sr : ℕ) : ℕ → ℕ → List ℤ
  | 0, _ => []
  | fuel + 1, pos =>
    if pos < absSize then
      let pos1 := if 1 < sr ∧ pos = first then pos + (sr - 2) * other else pos
      match segAt first other pos1 with
      | some rs => recs rs.1 ++ tdmsLoop recs first other absSize sr fuel (pos1 + rs.2)
      | none => []
    else []

/-- `read_tdms` (lines 129-205).  Mirrors the source step by step: assign
`lframes`/`nframes`; window arithmetic; the `start_record + n_records >
nRecordsPerFile` guard returning early; `absolute_size`; the segment loop; the
duplicate-record trim for `start_record > 1`; the intra-record slice; the
interleaved complex assembly scaled by the per-file gain. -/
def read_tdms (f : TdmsFile) (st : TdmsState) (nframes lframes sframes : ℕ) : TdmsState :=
  let st := { st with lframes := lframes, nframes := nframes }
  let total_n_bytes := tdms_total_n_bytes nframes lframes
  let sr := tdms_start_record lframes sframes f.nSamplesPerRecord
  let ssw := tdms_start_within lframes sframes f.nSamplesPerRecord
  let nr := tdms_n_records nframes lframes sframes f.nSamplesPerRecord
  if f.nRecordsPerFile < sr + nr then st
  else
    let absolute_size := f.first_rec_size + (sr + nr - 2) * f.other_rec_size
    let ii0 := tdmsLoop f.recI f.first_rec_size f.other_rec_size absolute_size sr (nr + 2) 0
    let qq0 := tdmsLoop f.recQ f.first_rec_size f.other_rec_size absolute_size sr (nr + 2) 0
    let ii1 := if 1 < sr then ii0.drop f.nSamplesPerRecord else ii0
    let qq1 := if 1 < sr then qq0.drop f.nSamplesPerRecord else qq0
    let ii := (ii1.drop ssw).take total_n_bytes
    let qq := (qq1.drop ssw).take total_n_bytes
    { st with
      scale := f.gain,
      data_array := some ((ii.zip qq).map (fun p => (f.gain * (p.1 : ℚ), f.gain * (p.2 : ℚ)))) }

/-- Sample `g` (0-based) of a channel, reading the record stream: record
`g / spr + 1`, offset `g % spr`. -/
def tdmsStream (recs : ℕ → List ℤ) (spr g : ℕ) : ℤ :=
  (recs (g / spr + 1)).getD (g % spr) 0

/-! ### Loop lemmas for the TDMS segment loop -/

theorem tdmsLoop_stop (recs : ℕ → List ℤ) (first other absSize sr fuel pos : ℕ)
    (h : absSize ≤ pos) :
    tdmsLoop recs first other absSize sr fuel pos = [] := by
  cases fuel with
  | zero => rfl
  | succ f =>
    show tdmsLoop recs first other absSize sr (f + 1) pos = []
    rw [tdmsLoop, if_neg (by omega)]

theorem tdmsLoop_step (recs : ℕ → List ℤ) (first other absSize sr fuel pos r sz : ℕ)
    (hlt : pos < absSize) (hj : ¬(1 < sr ∧ pos = first))
    (hseg : segAt first other pos = some (r, sz)) :
    tdmsLoop recs first other absSize sr (fuel + 1) pos =
      recs r ++ tdmsLoop recs first other absSize sr fuel (pos + sz) := by
  conv_lhs => rw [tdmsLoop]
  rw [if_pos hlt]
  simp only [if_neg hj, hseg]

theorem tdmsLoop_jump (recs : ℕ → List ℤ) (first other absSize sr fuel pos r sz : ℕ)
    (hlt : pos < absSize) (hj : 1 < sr ∧ pos = first)
    (hseg : segAt first other (pos + (sr - 2) * other) = some (r, sz)) :
    tdmsLoop recs first other absSize sr (fuel + 1) pos =
      recs r ++ tdmsLoop recs first other absSize sr fuel (pos + (sr - 2) * other + sz) := by
  conv_lhs => rw [tdmsLoop]
  rw [if_pos hlt]
  simp only [if_pos hj, hseg]

theorem segAt_rec (first other t : ℕ) (hother : 0 < other) (hfirst : 0 < first) :
    segAt first other (first + t * other) = some (2 + t, other) := by
  have hne : ¬(first + t * other = 0) := by omega
  have e1 : first + t * other - first = t * other := by omega
  have e2 : t * other % other = 0 := Nat.mul_mod_left t other
  have e3 : t * other / other = t := Nat.mul_div_cancel t hother
  rw [segAt, if_neg hne, if_pos ⟨Nat.le_add_right first _, by rw [e1]; exact e2⟩, e1, e3]

/-- Once past the jump, the loop sits at position `first + t*other` (record
`2 + t` due next) and collects one record per remaining segment until
`absSize`. -/
theorem tdmsLoop_tail (recs : ℕ → List ℤ) (first other sr : ℕ)
    (hother : 0 < other) (hfirst : 0 < first) :
    ∀ (m fuel t : ℕ), m ≤ fuel → (1 < sr → 1 ≤ t) →
      tdmsLoop recs first other (first + (t + m) * other) sr fuel (first + t * other) =
        ((List.range m).map (fun j => recs (2 + t + j))).flatten := by
  intro m
  induction m with
  | zero =>
    intro fuel t _ _
    simp only [Nat.add_zero, List.range_zero, List.map_nil, List.flatten_nil]
    exact tdmsLoop_stop _ _ _ _ _ _ _ (le_refl _)
  | succ m ih =>
    intro fuel t hf ht
    obtain ⟨f, rfl⟩ : ∃ f, fuel = f + 1 := ⟨fuel - 1, by omega⟩
    have hlt : first + t * other < first + (t + (m + 1)) * other := by
      have : t * other < (t + (m + 1)) * other :=
        Nat.mul_lt_mul_of_lt_of_le (by omega) (le_refl other) hother
      omega
    have hj : ¬(1 < sr ∧ first + t * other = first) := by
      rintro ⟨hsr, he⟩
      have h1 : 1 ≤ t := ht hsr
      have : 0 < t * other := Nat.mul_pos (by omega) hother
      omega
    rw [tdmsLoop_step recs first other _ sr f _ _ _ hlt hj (segAt_rec first other t hother hfirst)]
    have hnext : first + t * other + other = first + (t + 1) * other := by
      have : (t + 1) * other = t * other + other := by rw [Nat.succ_mul]
      omega
    have habs : first + (t + (m + 1)) * other = first + ((t + 1) + m) * other := by
      have : t + (m + 1) = (t + 1) + m := by omega
      rw [this]
    rw [hnext, habs, ih f (t + 1) (by omega) (fun _ => by omega)]
    rw [List.range_succ_eq_map, List.map_cons, List.flatten_cons, List.map_map]
    have : (fun j => recs (2 + t + j)) ∘ Nat.succ = fun j => recs (2 + (t + 1) + j) := by
      funext j
      simp only [Function.comp]
      congr 1
      omega
    rw [this]
    norm_num

/-- Full run of the segment loop when `start_record = 1`: no jump happens and
records `1 .. nr` are read in order. -/
theorem tdmsLoop_run1 (recs : ℕ → List ℤ) (first other nr fuel : ℕ)
    (hother : 0 < other) (hfirst : 0 < first) (hnr : 1 ≤ nr) (hfuel : nr + 1 ≤ fuel) :
    tdmsLoop recs first other (first + (nr - 1) * other) 1 fuel 0 =
      ((List.range nr).map (fun j => recs (1 + j))).flatten := by
  obtain ⟨f, rfl⟩ : ∃ f, fuel = f + 1 := ⟨fuel - 1, by omega⟩
  have hseg0 : segAt first other 0 = some (1, first) := by rw [segAt, if_pos rfl]
  rw [tdmsLoop_step recs first other _ 1 f 0 1 first (by omega) (by omega) hseg0]
  have h0 : (0 : ℕ) + first = first + 0 * other := by omega
  have habs : first + (nr - 1) * other = first + (0 + (nr - 1)) * other := by
    rw [Nat.zero_add]
  rw [h0, habs, tdmsLoop_tail recs first other 1 hother hfirst (nr - 1) f 0 (by omega) (by omega)]
  obtain ⟨m, rfl⟩ : ∃ m, nr = m + 1 := ⟨nr - 1, by omega⟩
  rw [List.range_succ_eq_map, List.map_cons, List.flatten_cons, List.map_map]
  have he : (fun j => recs (1 + j)) ∘ Nat.succ = fun j => recs (2 + 0 + j) := by
    funext j
    simp only [Function.comp]
    congr 1
    omega
  rw [he]
  norm_num

/-- Full run of the segment loop when `start_record ≥ 2`: record 1 is read,
the jump skips `start_record - 2` records, then records
`start_record .. start_record + nr - 1` are read. -/
theorem tdmsLoop_run2 (recs : ℕ → List ℤ) (first other sr nr fuel : ℕ)
    (hother : 0 < other) (hfirst : 0 < first) (hsr : 2 ≤ sr) (hnr : 1 ≤ nr)
    (hfuel : nr + 2 ≤ fuel) :
    tdmsLoop recs first other (first + (sr + nr - 2) * other) sr fuel 0 =
      recs 1 ++ ((List.range nr).map (fun j => recs (sr + j))).flatten := by
  obtain ⟨f, rfl⟩ : ∃ f, fuel = f + 1 := ⟨fuel - 1, by omega⟩
  have hseg0 : segAt first other 0 = some (1, first) := by rw [segAt, if_pos rfl]
  have habs0 : 0 < first + (sr + nr - 2) * other := by omega
  rw [tdmsLoop_step recs first other _ sr f 0 1 first habs0 (by omega) hseg0]
  obtain ⟨f2, rfl⟩ : ∃ f2, f = f2 + 1 := ⟨f - 1, by omega⟩
  have hlt1 : (0 : ℕ) + first < first + (sr + nr - 2) * other := by
    have : 0 < (sr + nr - 2) * other := Nat.mul_pos (by omega) hother
    omega
  have hseg1 : segAt first other (0 + first + (sr - 2) * other) = some (sr, other) := by
    have := segAt_rec first other (sr - 2) hother hfirst
    have he : 2 + (sr - 2) = sr := by omega
    rw [he] at this
    rw [Nat.zero_add]
    exact this
  rw [tdmsLoop_jump recs first other _ sr f2 (0 + first) sr other hlt1 ⟨by omega, by omega⟩ hseg1]
  have hpos : 0 + first + (sr - 2) * other + other = first + (sr - 1) * other := by
    have : (sr - 1) * other = (sr - 2) * other + other := by
      have he : sr - 1 = (sr - 2) + 1 := by omega
      rw [he, Nat.succ_mul]
    omega
  have habs : first + (sr + nr - 2) * other = first + ((sr - 1) + (nr - 1)) * other := by
    have : sr + nr - 2 = (sr - 1) + (nr - 1) := by omega
    rw [this]
  rw [hpos, habs,
    tdmsLoop_tail recs first other sr hother hfirst (nr - 1) f2 (sr - 1) (by omega) (by omega)]
  obtain ⟨m, rfl⟩ : ∃ m, nr = m + 1 := ⟨nr - 1, by omega⟩
  simp only [Nat.add_sub_cancel]
  rw [List.range_succ_eq_map, List.map_cons, List.flatten_cons, List.map_map]
  have he : (fun j => recs (2 + (sr - 1) + j)) = (fun j => recs (sr + j)) ∘ Nat.succ := by
    funext j
    simp only [Function.comp]
    congr 1
    omega
  rw [he]
  norm_num

/-! ### From records to the global sample stream -/

theorem tdms_rec_eq (recs : ℕ → List ℤ) (spr : ℕ) (hspr : 0 < spr)
    (hlen : ∀ r, 1 ≤ r → (recs r).length = spr) :
    ∀ r, 1 ≤ r →
      recs r = (List.range spr).map (fun o => tdmsStream recs spr ((r - 1) * spr + o)) := by
  intro r hr
  apply List.ext_getElem
  · simp [hlen r hr]
  · intro n h1 h2
    have hn : n < spr := by
      have := hlen r hr
      omega
    rw [List.getElem_map, List.getElem_range]
    unfold tdmsStream
    have hdiv : ((r - 1) * spr + n) / spr = r - 1 := by
      rw [Nat.mul_comm, Nat.mul_add_div hspr, Nat.div_eq_of_lt hn]
      omega
    have hmod : ((r - 1) * spr + n) % spr = n := by
      rw [Nat.mul_comm, Nat.mul_add_mod, Nat.mod_eq_of_lt hn]
    rw [hdiv, hmod]
    have hr1 : r - 1 + 1 = r := by omega
    rw [hr1, List.getD_eq_getElem]

theorem tdms_flatten_eq (recs : ℕ → List ℤ) (spr : ℕ) (hspr : 0 < spr)
    (hlen : ∀ r, 1 ≤ r → (recs r).length = spr) :
    ∀ (m b : ℕ), 1 ≤ b →
      ((List.range m).map (fun j => recs (b + j))).flatten =
        (List.range (m * spr)).map (fun i => tdmsStream recs spr ((b - 1) * spr + i)) := by
  intro m
  induction m with
  | zero => intro b _; simp
  | succ m ih =>
    intro b hb
    rw [List.range_succ, List.map_append, List.flatten_append, ih b hb]
    rw [Nat.succ_mul, List.range_add, List.map_append]
    congr 1
    simp only [List.map_cons, List.map_nil, List.flatten_cons, List.flatten_nil,
      List.append_nil, List.map_map]
    rw [tdms_rec_eq recs spr hspr hlen (b + m) (by omega)]
    apply List.map_congr_left
    intro o _
    simp only [Function.comp]
    congr 1
    have : (b - 1) * spr + m * spr = (b + m - 1) * spr := by
      have he : b + m - 1 = (b - 1) + m := by omega
      rw [he, Nat.add_mul]
    omega

theorem slice_map_range {α : Type} (g : ℕ → α) (T a d c : ℕ) (h : d + c ≤ T) :
    (((List.range T).map (fun i => g (a + i))).drop d).take c =
      (List.range c).map (fun k => g (a + d + k)) := by
  apply List.ext_getElem
  · simp only [List.length_take, List.length_drop, List.length_map, List.length_range]
    omega
  · intro n h1 h2
    have hn : n < c := by
      simpa using h2
    rw [List.getElem_take, List.getElem_drop, List.getElem_map, List.getElem_range,
      List.getElem_map, List.getElem_range]
    congr 1
    omega

/-- The trim-and-slice pipeline of lines 187-196 for one channel: whatever
`start_record` is, the surviving window is exactly the samples
`(sframes-1)*lframes .. (sframes-1)*lframes + nframes*lframes` of the global
stream. -/
theorem tdms_channel_spec (recs : ℕ → List ℤ) (spr first other n l s : ℕ)
    (hother : 0 < other) (hfirst : 0 < first) (hspr : 0 < spr)
    (hlen : ∀ r, 1 ≤ r → (recs r).length = spr) :
    ((if 1 < tdms_start_record l s spr then
        (tdmsLoop recs first other
            (first + (tdms_start_record l s spr + tdms_n_records n l s spr - 2) * other)
            (tdms_start_record l s spr) (tdms_n_records n l s spr + 2) 0).drop spr
      else
        tdmsLoop recs first other
            (first + (tdms_start_record l s spr + tdms_n_records n l s spr - 2) * other)
            (tdms_start_record l s spr) (tdms_n_records n l s spr + 2) 0).drop
        (tdms_start_within l s spr)).take (tdms_total_n_bytes n l) =
      (List.range (n * l)).map (fun k => tdmsStream recs spr ((s - 1) * l + k)) := by
  have hbound : tdms_start_within l s spr + tdms_total_n_bytes n l ≤
      tdms_n_records n l s spr * spr := by
    obtain ⟨q, hq⟩ : ∃ q, (tdms_start_within l s spr + tdms_total_n_bytes n l) / spr = q :=
      ⟨_, rfl⟩
    have h1 := Nat.div_add_mod (tdms_start_within l s spr + tdms_total_n_bytes n l) spr
    rw [hq] at h1
    have h2 : (tdms_start_within l s spr + tdms_total_n_bytes n l) % spr < spr :=
      Nat.mod_lt _ hspr
    have h3 : tdms_n_records n l s spr * spr = spr * q + spr := by
      have he : tdms_n_records n l s spr = q + 1 := by rw [← hq]; rfl
      rw [he, Nat.add_mul, Nat.one_mul, Nat.mul_comm]
    omega
  have hoff : (tdms_start_record l s spr - 1) * spr + tdms_start_within l s spr =
      (s - 1) * l := by
    have h1 := Nat.div_add_mod ((s - 1) * l) spr
    have h2 : tdms_start_record l s spr - 1 = (s - 1) * l / spr := rfl
    have h3 : tdms_start_within l s spr = (s - 1) * l % spr := rfl
    rw [h2, h3, Nat.mul_comm]
    exact h1
  have hnr1 : 1 ≤ tdms_n_records n l s spr := Nat.le_add_left 1 _
  by_cases hc : 1 < tdms_start_record l s spr
  · rw [if_pos hc]
    rw [tdmsLoop_run2 recs first other _ _ _ hother hfirst (by omega) hnr1 (le_refl _)]
    have hdrop : ∀ X : List ℤ, (recs 1 ++ X).drop spr = X := by
      intro X
      have he : spr = (recs 1).length := (hlen 1 (le_refl 1)).symm
      rw [he]
      exact List.drop_left _ _
    rw [hdrop]
    rw [tdms_flatten_eq recs spr hspr hlen (tdms_n_records n l s spr)
      (tdms_start_record l s spr) (by omega)]
    rw [slice_map_range (tdmsStream recs spr) _ _ _ _ hbound]
    have hfun : (fun k => tdmsStream recs spr
        ((tdms_start_record l s spr - 1) * spr + tdms_start_within l s spr + k)) =
        fun k => tdmsStream recs spr ((s - 1) * l + k) := by
      funext k
      congr 1
      omega
    rw [hfun]
    rfl
  · rw [if_neg hc]
    have hsr1 : tdms_start_record l s spr = 1 := by
      have : 1 ≤ tdms_start_record l s spr := Nat.le_add_left 1 _
      omega
    have habs : first + (tdms_start_record l s spr + tdms_n_records n l s spr - 2) * other =
        first + (tdms_n_records n l s spr - 1) * other := by
      rw [hsr1]
      have he : 1 + tdms_n_records n l s spr - 2 = tdms_n_records n l s spr - 1 := by omega
      rw [he]
    rw [habs, hsr1]
    rw [tdmsLoop_run1 recs first other (tdms_n_records n l s spr)
      (tdms_n_records n l s spr + 2) hother hfirst hnr1 (by omega)]
    rw [tdms_flatten_eq recs spr hspr hlen (tdms_n_records n l s spr) 1 (le_refl 1)]
    rw [slice_map_range (tdmsStream recs spr) _ _ _ _ hbound]
    rw [hsr1] at hoff
    have hfun : (fun k => tdmsStream recs spr
        ((1 - 1) * spr + tdms_start_within l s spr + k)) =
        fun k => tdmsStream recs spr ((s - 1) * l + k) := by
      funext k
      congr 1
      omega
    rw [hfun]
    rfl

/-- Characterization of a successful `read_tdms` call: when the
`start_record + n_records ≤ nRecordsPerFile` guard passes, the produced
`data_array` is exactly the `nframes*lframes`-sample window of the global
stream starting at sample `(sframes-1)*lframes`, scaled by the gain. -/
theorem read_tdms_spec (f : TdmsFile) (st : TdmsState) (nframes lframes sframes : ℕ)
    (hother : 0 < f.other_rec_size) (hfirst : 0 < f.first_rec_size)
    (hspr : 0 < f.nSamplesPerRecord)
    (hlenI : ∀ r, 1 ≤ r → (f.recI r).length = f.nSamplesPerRecord)
    (hlenQ : ∀ r, 1 ≤ r → (f.recQ r).length = f.nSamplesPerRecord)
    (hguard : tdms_start_record lframes sframes f.nSamplesPerRecord +
        tdms_n_records nframes lframes sframes f.nSamplesPerRecord ≤ f.nRecordsPerFile) :
    read_tdms f st nframes lframes sframes =
      { st with
        lframes := lframes, nframes := nframes, scale := f.gain,
        data_array := some ((List.range (nframes * lframes)).map (fun k =>
          (f.gain * (tdmsStream f.recI f.nSamplesPerRecord ((sframes - 1) * lframes + k) : ℚ),
           f.gain * (tdmsStream f.recQ f.nSamplesPerRecord
              ((sframes - 1) * lframes + k) : ℚ)))) } := by
  have hI := tdms_channel_spec f.recI f.nSamplesPerRecord f.first_rec_size f.other_rec_size
    nframes lframes sframes hother hfirst hspr hlenI
  have hQ := tdms_channel_spec f.recQ f.nSamplesPerRecord f.first_rec_size f.other_rec_size
    nframes lframes sframes hother hfirst hspr hlenQ
  simp only [read_tdms]
  rw [if_neg (by omega)]
  rw [hI, hQ, List.zip_map', List.map_map]
  rfl

/-! ## IQT reader (`read_iqt`, lines 311-387)

Each frame is a fixed 4120-byte struct: a 24-byte header and 2048 interleaved
int16 samples (Q then I per pair).  `lframes` is not used by the addressing at
all — the frame payload is fixed at 1024 complex samples.  The three gain
parameters parsed from the text header drive the analytic scale factor of
line 352. -/

structure IqtHeader where
  gain_offset : ℚ
  max_input_level : ℚ
  level_offset : ℚ

structure IqtFile where
  header : IqtHeader
  frameData : ℕ → List ℤ

/-- Per-frame reordering of lines 380-383: real parts come from the odd
positions (`data[1::2]`), imaginary parts from the even positions
(`data[::2]`), giving 1024 complex samples per frame. -/
def iqt_frame_complex (d : List ℤ) : List (ℤ × ℤ) :=
  (List.range 1024).map (fun k => (d.getD (2 * k + 1) 0, d.getD (2 * k) 0))

/-- The unscaled sample assembly of `read_iqt`: frames
`sframes-1 .. sframes-1+nframes-1` (0-based) are read and concatenated; the
output buffer `np.zeros(1024 * nframes)` is filled frame by frame. -/
def read_iqt_raw (f : IqtFile) (nframes lframes sframes : ℕ) : List (ℤ × ℤ) :=
  ((List.range nframes).map (fun i => iqt_frame_complex (f.frameData (sframes - 1 + i)))).flatten

/-- Line 352: `scale = sqrt(10 ** ((gain_offset + max_input_level +
level_offset) / 10) / 20 * 2)`. -/
noncomputable def iqt_scale (h : IqtHeader) : ℝ :=
  Real.sqrt ((10 : ℝ) ^
    (((h.gain_offset + h.max_input_level + h.level_offset : ℚ) : ℝ) / 10) / 20 * 2)

/-- The final `data_array` of `read_iqt` (line 386): the raw samples scaled by
the instrument scale factor. -/
noncomputable def read_iqt_data (f : IqtFile) (nframes lframes sframes : ℕ) : List (ℝ × ℝ) :=
  (read_iqt_raw f nframes lframes sframes).map
    (fun p => (iqt_scale f.header * (p.1 : ℝ), iqt_scale f.header * (p.2 : ℝ)))

theorem flatten_const_length {α : Type} (g : ℕ → List α) (c : ℕ)
    (h : ∀ i, (g i).length = c) :
    ∀ n, (((List.range n).map g).flatten).length = n * c := by
  intro n
  induction n with
  | zero => simp
  | succ m ih =>
    rw [List.range_succ, List.map_append, List.flatten_append, List.length_append, ih]
    simp only [List.map_cons, List.map_nil, List.flatten_cons, List.flatten_nil,
      List.append_nil, h m]
    rw [Nat.succ_mul]

theorem read_iqt_raw_length (f : IqtFile) (nframes lframes sframes : ℕ) :
    (read_iqt_raw f nframes lframes sframes).length = nframes * 1024 := by
  unfold read_iqt_raw
  exact flatten_const_length _ 1024
    (fun i => by simp [iqt_frame_complex]) nframes

/-! ## TIQ reader (`read_tiq`, lines 389-472)

After the XML header, the payload is a flat array of little-endian int32
pairs: sample `g` is the pair of int32 values at indices `2g, 2g+1`.  The
reader seeks to `data_offset + 8*(sframes-1)*lframes`, reads
`8*nframes*lframes` bytes, scales and reinterprets as complex doubles.  The
model indexes the payload by int32 position; reads stay inside the file for
every window the claims quantify over. -/

structure TiqFile where
  number_samples : ℕ
  payload : ℕ → ℤ
  scale : ℚ

/-- The `data_array` produced by `read_tiq` (lines 457-469). -/
def read_tiq_data (f : TiqFile) (nframes lframes sframes : ℕ) : List (ℚ × ℚ) :=
  (List.range (nframes * lframes)).map (fun k =>
    (f.scale * (f.payload (2 * ((sframes - 1) * lframes + k)) : ℚ),
     f.scale * (f.payload (2 * ((sframes - 1) * lframes + k) + 1) : ℚ)))

/-! ## TCAP reader (`read_tcap`, lines 474-537) and the BCD timestamp decoder
(`parse_tcap_tfp`, lines 553-602)

The file is a grid of 15625 blocks of 88 header bytes + 2^17 payload bytes
(`BLOCK_SIZE = 131160`).  The byte-at-a-time copy loop seeks to
`88 + 4*(sframes-1)*lframes` and, before each byte, skips 88 bytes whenever
the running position is divisible by 131160. -/

/-- The per-byte header skip of lines 522-528: if the file position is at a
multiple of `BLOCK_SIZE = 131160`, advance past that block's 88-byte header. -/
def tcapStep (pos : ℕ) : ℕ := if pos % 131160 = 0 then pos + 88 else pos

/-- The copy loop of lines 521-530: `count` iterations, each applying the
header skip and then reading one byte. -/
def tcapCopy (file : ℕ → ℕ) : ℕ → ℕ → List ℕ
  | _, 0 => []
  | pos, count + 1 => file (tcapStep pos) :: tcapCopy file (tcapStep pos + 1) count

/-- File position of logical payload byte `j`: each payload byte sits past the
headers of all blocks up to and including its own. -/
def tcapPayloadPos (j : ℕ) : ℕ := 88 * (j / 131072 + 1) + j

/-- Nibble extraction `(b >> 4) & 0x17` used throughout `parse_tcap_tfp`. -/
def tfpHi (b : ℕ) : ℕ := (b >>> 4) &&& 0x17

/-- Nibble extraction `(b >> 0) & 0x17` used throughout `parse_tcap_tfp`. -/
def tfpLo (b : ℕ) : ℕ := b &&& 0x17

/-- Line 595: `days = dh * 100 + dt * 10 + du`. -/
def tfpDays (tfp : List ℕ) : ℕ :=
  tfpLo (tfp.getD 3 0) * 100 + tfpHi (tfp.getD 4 0) * 10 + tfpLo (tfp.getD 4 0)

/-- Line 596: `hours = ht * 10 + hu`. -/
def tfpHours (tfp : List ℕ) : ℕ := tfpHi (tfp.getD 5 0) * 10 + tfpLo (tfp.getD 5 0)

/-- Line 597: `minutes = mt * 10 + mu`. -/
def tfpMinutes (tfp : List ℕ) : ℕ := tfpHi (tfp.getD 6 0) * 10 + tfpLo (tfp.getD 6 0)

/-- Line 598: `seconds = st*10 + su + sem1*1e-1 + ... + sem7*1e-7`. -/
def tfpSeconds (tfp : List ℕ) : ℚ :=
  ((tfpHi (tfp.getD 7 0) * 10 + tfpLo (tfp.getD 7 0) : ℕ) : ℚ) +
    (tfpHi (tfp.getD 8 0) : ℚ) / 10 + (tfpLo (tfp.getD 8 0) : ℚ) / 100 +
    (tfpHi (tfp.getD 9 0) : ℚ) / 1000 + (tfpLo (tfp.getD 9 0) : ℚ) / 10000 +
    (tfpHi (tfp.getD 10 0) : ℚ) / 100000 + (tfpLo (tfp.getD 10 0) : ℚ) / 1000000 +
    (tfpHi (tfp.getD 11 0) : ℚ) / 10000000

/-- `parse_tcap_tfp` (lines 553-602), up to the `datetime` formatting: the
epoch-seconds value `ts_epoch = seconds + 60*(minutes + 60*(hours +
24*days))` of line 600, decoded from the 12-byte register with the source's
`0x17` masks.  The calendar-string formatting of line 601 is locale/OS
dependent and is not modelled. -/
def parse_tcap_tfp (tfp : List ℕ) : ℚ :=
  tfpSeconds tfp +
    60 * ((tfpMinutes tfp : ℚ) + 60 * ((tfpHours tfp : ℚ) + 24 * (tfpDays tfp : ℚ)))

/-- Big-endian signed 16-bit value from two bytes (`frombuffer` with dtype
`>i2`, line 534). -/
def toInt16 (b0 b1 : ℕ) : ℤ :=
  if 32768 ≤ b0 * 256 + b1 then (b0 * 256 + b1 : ℤ) - 65536 else (b0 * 256 + b1 : ℤ)

/-- Lines 534-537: reinterpret the copied bytes as big-endian int16 I/Q
pairs, scale by `6.25e-2` and view as complex. -/
def tcap_complex (ba : List ℕ) : List (ℚ × ℚ) :=
  (List.range (ba.length / 4)).map (fun k =>
    ((toInt16 (ba.getD (4 * k) 0) (ba.getD (4 * k + 1) 0) : ℚ) * (625 / 10000),
     (toInt16 (ba.getD (4 * k + 2) 0) (ba.getD (4 * k + 3) 0) : ℚ) * (625 / 10000)))

structure TcapFile where
  filesize : ℕ
  byteAt : ℕ → ℕ

/-- The mutable `IQData` fields that `read_tcap` touches. -/
structure TcapState where
  lframes : ℕ
  nframes : ℕ
  fs : ℚ
  center : ℚ
  scale : ℚ
  span : ℚ
  nframes_tot : ℕ
  number_samples : ℕ
  date_time : Option ℚ
  tcap_pio : Option (List ℕ)
  tcap_scalers : Option (List ℕ)
  data_array : Option (List (ℚ × ℚ))
deriving DecidableEq

/-- `read_tcap` (lines 474-537): assign `lframes`/`nframes`; abort unless the
file size is exactly `15625 * (88 + 2^17)`; otherwise decode the 12-byte TFP
register, capture `pio`/`scalers`, set the fixed acquisition constants, run
the skip-and-copy loop from `88 + 4*(sframes-1)*lframes` for
`4*nframes*lframes` bytes and build the complex buffer. -/
def read_tcap (f : TcapFile) (st : TcapState) (nframes lframes sframes : ℕ) : TcapState :=
  let st := { st with lframes := lframes, nframes := nframes }
  if f.filesize ≠ 15625 * (88 + 2 ^ 17) then st
  else
    let tfp := (List.range 12).map f.byteAt
    let pio := (List.range 12).map (fun i => f.byteAt (12 + i))
    let scalers := (List.range 64).map (fun i => f.byteAt (24 + i))
    let total_n_bytes := 4 * nframes * lframes
    let start_n_bytes := 4 * (sframes - 1) * lframes
    let ba := tcapCopy f.byteAt (88 + start_n_bytes) total_n_bytes
    { st with
      date_time := some (parse_tcap_tfp tfp),
      tcap_pio := some pio,
      tcap_scalers := some scalers,
      fs := 312500,
      center := 160000,
      scale := 625 / 10000,
      nframes_tot := 15625 * 32768 / nframes,
      number_samples := 15625 * 32768,
      span := 312500,
      data_array := some (tcap_complex ba) }

/-! ### Lemmas on the TCAP copy loop -/

theorem tcapPayloadPos_fix (j : ℕ) : tcapStep (tcapPayloadPos j) = tcapPayloadPos j := by
  unfold tcapStep tcapPayloadPos
  rw [if_neg]
  omega

theorem tcapPayloadPos_next (j : ℕ) :
    tcapStep (tcapPayloadPos j + 1) = tcapPayloadPos (j + 1) := by
  unfold tcapStep tcapPayloadPos
  split_ifs with h
  · omega
  · omega

/-- Entering the loop at the position of payload byte `j` (pre- or post-skip),
the next `c` copied bytes are exactly payload bytes `j .. j+c-1`. -/
theorem tcapCopy_eq (file : ℕ → ℕ) :
    ∀ (c j p : ℕ), tcapStep p = tcapPayloadPos j →
      tcapCopy file p c = (List.range c).map (fun k => file (tcapPayloadPos (j + k))) := by
  intro c
  induction c with
  | zero => intro j p _; rfl
  | succ c ih =>
    intro j p hp
    conv_lhs => rw [tcapCopy]
    rw [hp, ih (j + 1) (tcapPayloadPos j + 1) (tcapPayloadPos_next j)]
    rw [List.range_succ_eq_map, List.map_cons, List.map_map]
    have he : (fun k => file (tcapPayloadPos (j + k))) ∘ Nat.succ =
        fun k => file (tcapPayloadPos (j + 1 + k)) := by
      funext k
      simp only [Function.comp]
      congr 2
      omega
    rw [he]
    norm_num

/-- The initial seek `88 + start_n_bytes` sits on payload byte `start_n_bytes`
(after at most one header skip) whenever the start offset does not pass the
first block's payload. -/
theorem tcapStart (j : ℕ) (h : j ≤ 131072) : tcapStep (88 + j) = tcapPayloadPos j := by
  unfold tcapStep tcapPayloadPos
  split_ifs with hif
  · omega
  · omega

/-! ### Lemmas on the `0x17` nibble masks -/

set_option maxRecDepth 4096 in
theorem tfpLo_eq : ∀ b : ℕ, b < 256 → b % 16 ≤ 7 → b / 16 % 2 = 0 → tfpLo b = b % 16 := by
  decide

set_option maxRecDepth 4096 in
theorem tfpHi_eq : ∀ b : ℕ, b < 256 → b / 16 ≤ 7 → tfpHi b = b / 16 := by
  decide

/-! ## Concrete fixtures used by witnesses and counterexamples -/

def tdmsSt0 : TdmsState := { lframes := 0, nframes := 0, scale := 0, data_array := none }

def tdmsSt7 : TdmsState := { lframes := 7, nframes := 7, scale := 0, data_array := none }

/-- Two records of four samples each (the whole file). -/
def tdmsFileA : TdmsFile :=
  { nSamplesPerRecord := 4, nRecordsPerFile := 2, first_rec_size := 10, other_rec_size := 8,
    recI := fun r => [4 * (r : ℤ), 4 * r + 1, 4 * r + 2, 4 * r + 3],
    recQ := fun r => [100 * (r : ℤ), 100 * r + 1, 100 * r + 2, 100 * r + 3], gain := 1 }

/-- Three records of four samples each. -/
def tdmsFileB : TdmsFile :=
  { nSamplesPerRecord := 4, nRecordsPerFile := 3, first_rec_size := 10, other_rec_size := 8,
    recI := fun r => [4 * (r : ℤ), 4 * r + 1, 4 * r + 2, 4 * r + 3],
    recQ := fun r => [100 * (r : ℤ), 100 * r + 1, 100 * r + 2, 100 * r + 3], gain := 1 }

/-- Six records of two samples each. -/
def tdmsFileC : TdmsFile :=
  { nSamplesPerRecord := 2, nRecordsPerFile := 6, first_rec_size := 10, other_rec_size := 8,
    recI := fun r => [2 * (r : ℤ), 2 * r + 1],
    recQ := fun r => [100 * (r : ℤ), 100 * r + 1], gain := 1 }

/-! ## Claim theorems -/

/-- C1 (counterexample): the window `(L,N,S) = (4,2,1)` on a 2-record file of
4 samples per record satisfies `(S-1+N)*L ≤ total_sample_count`, yet
`read_tdms` produces no `data_array` at all (the record-window guard trips),
so the read does not return `N*L` complex samples. -/
theorem read_window_sample_count_cex :
    (1 - 1 + 2) * 4 ≤ tdmsFileA.nSamplesPerRecord * tdmsFileA.nRecordsPerFile ∧
    (read_tdms tdmsFileA tdmsSt0 2 4 1).data_array = none := by
  decide

/-- C1 (amended): `read_tdms` returns exactly `N*L` complex samples whenever
its record-window guard passes (`start_record + n_records ≤ records_per_file`
— which valid windows near the end of the file can fail); `read_iqt` always
returns `1024*N` samples, which is `N*L` only for the fixed frame length
`L = 1024`; `read_tiq` returns exactly `N*L` complex samples for every valid
window. -/
theorem read_window_sample_count :
    (∀ (f : TdmsFile) (st : TdmsState) (n l s : ℕ),
      0 < f.other_rec_size → 0 < f.first_rec_size → 0 < f.nSamplesPerRecord →
      (∀ r, 1 ≤ r → (f.recI r).length = f.nSamplesPerRecord) →
      (∀ r, 1 ≤ r → (f.recQ r).length = f.nSamplesPerRecord) →
      tdms_start_record l s f.nSamplesPerRecord + tdms_n_records n l s f.nSamplesPerRecord ≤
        f.nRecordsPerFile →
      ∃ d, (read_tdms f st n l s).data_array = some d ∧ d.length = n * l) ∧
    (∀ (f : IqtFile) (n l s : ℕ), (read_iqt_data f n l s).length = 1024 * n) ∧
    (∀ (f : TiqFile) (n l s : ℕ), 1 ≤ s → (s - 1 + n) * l ≤ f.number_samples →
      (read_tiq_data f n l s).length = n * l) := by
  refine ⟨?_, ?_, ?_⟩
  · intro f st n l s hother hfirst hspr hlenI hlenQ hguard
    refine ⟨(List.range (n * l)).map (fun k =>
        (f.gain * (tdmsStream f.recI f.nSamplesPerRecord ((s - 1) * l + k) : ℚ),
         f.gain * (tdmsStream f.recQ f.nSamplesPerRecord ((s - 1) * l + k) : ℚ))), ?_, ?_⟩
    · rw [read_tdms_spec f st n l s hother hfirst hspr hlenI hlenQ hguard]
    · rw [List.length_map, List.length_range]
  · intro f n l s
    unfold read_iqt_data
    rw [List.length_map, read_iqt_raw_length]
    exact Nat.mul_comm _ _
  · intro f n l s _ _
    unfold read_tiq_data
    rw [List.length_map, List.length_range]

/-- C1 (witness): concrete instances of all three readers returning the
amended sample counts. -/
theorem read_window_sample_count_witness :
    (∃ d, (read_tdms tdmsFileC tdmsSt0 1 2 1).data_array = some d ∧ d.length = 1 * 2) ∧
    (read_iqt_data { header := ⟨0, 0, 0⟩, frameData := fun _ => List.replicate 2048 0 }
      2 512 1).length = 1024 * 2 ∧
    (read_tiq_data { number_samples := 100, payload := fun k => (k : ℤ), scale := 1 }
      2 3 1).length = 2 * 3 := by
  refine ⟨?_, ?_, ?_⟩
  · exact read_window_sample_count.1 tdmsFileC tdmsSt0 1 2 1 (by decide) (by decide) (by decide)
      (fun r _ => rfl) (fun r _ => rfl) (by decide)
  · exact read_window_sample_count.2.1 _ 2 512 1
  · exact read_window_sample_count.2.2 _ 2 3 1 (by decide) (by decide)

/-- C2 (counterexample): with `samples_per_unit = 4`, `units_per_file = 3` and
the request `(L,N,S) = (4,2,1)`, the claim's condition
`start_unit + units_needed > units_per_file` (with the 0-based
`start_unit = start_offset div samples_per_unit`) is false — `0 + 3 ≤ 3` — yet
the code aborts the read with no data. -/
theorem window_addressing_arith_cex :
    tdms_start_n_bytes 4 1 / tdmsFileB.nSamplesPerRecord +
      tdms_n_records 2 4 1 tdmsFileB.nSamplesPerRecord ≤ tdmsFileB.nRecordsPerFile ∧
    (read_tdms tdmsFileB tdmsSt0 2 4 1).data_array = none := by
  decide

/-- C2 (amended): the window arithmetic computes `total_bytes_needed = N*L`,
`start_offset = (S-1)*L`, the 1-based `start_record = start_offset div
samples_per_unit + 1`, `intra_unit_offset = start_offset mod samples_per_unit`
and `units_needed = ((intra_unit_offset + total_bytes_needed) div
samples_per_unit) + 1`; the read fails with no data exactly when
`start_record + units_needed > units_per_file` (one more unit than the
claim's 0-based condition). -/
theorem window_addressing_arith (f : TdmsFile) (st : TdmsState) (n l s : ℕ) :
    tdms_total_n_bytes n l = n * l ∧
    tdms_start_n_bytes l s = (s - 1) * l ∧
    tdms_start_record l s f.nSamplesPerRecord = (s - 1) * l / f.nSamplesPerRecord + 1 ∧
    tdms_start_within l s f.nSamplesPerRecord = (s - 1) * l % f.nSamplesPerRecord ∧
    tdms_n_records n l s f.nSamplesPerRecord =
      ((s - 1) * l % f.nSamplesPerRecord + n * l) / f.nSamplesPerRecord + 1 ∧
    (st.data_array = none →
      ((read_tdms f st n l s).data_array = none ↔
        f.nRecordsPerFile < tdms_start_record l s f.nSamplesPerRecord +
          tdms_n_records n l s f.nSamplesPerRecord)) := by
  refine ⟨rfl, rfl, rfl, rfl, rfl, ?_⟩
  intro h
  by_cases hg : f.nRecordsPerFile < tdms_start_record l s f.nSamplesPerRecord +
      tdms_n_records n l s f.nSamplesPerRecord
  · simp only [read_tdms]
    rw [if_pos hg]
    simp [h, hg]
  · simp only [read_tdms]
    rw [if_neg hg]
    simp [hg]

/-- C2 (witness): the failure equivalence evaluated on a concrete aborting
request. -/
theorem window_addressing_arith_witness :
    (read_tdms tdmsFileB tdmsSt0 2 4 1).data_array = none ↔
      tdmsFileB.nRecordsPerFile < tdms_start_record 4 1 tdmsFileB.nSamplesPerRecord +
        tdms_n_records 2 4 1 tdmsFileB.nSamplesPerRecord :=
  (window_addressing_arith tdmsFileB tdmsSt0 2 4 1).2.2.2.2.2 rfl

/-- C4 (confirmed): when `start_record > 1` and the guard passes, the first
parsed record is discarded and the output is sliced starting at the
intra-record offset `(S-1)*L mod samples_per_record` for `N*L` samples — i.e.
the returned window is exactly samples `(S-1)*L .. (S-1)*L + N*L` of the
global stream (scaled by the gain). -/
theorem tdms_trim_slice (f : TdmsFile) (st : TdmsState) (n l s : ℕ)
    (hother : 0 < f.other_rec_size) (hfirst : 0 < f.first_rec_size)
    (hspr : 0 < f.nSamplesPerRecord)
    (hlenI : ∀ r, 1 ≤ r → (f.recI r).length = f.nSamplesPerRecord)
    (hlenQ : ∀ r, 1 ≤ r → (f.recQ r).length = f.nSamplesPerRecord)
    (_hsr : 1 < tdms_start_record l s f.nSamplesPerRecord)
    (hguard : tdms_start_record l s f.nSamplesPerRecord +
        tdms_n_records n l s f.nSamplesPerRecord ≤ f.nRecordsPerFile) :
    (read_tdms f st n l s).data_array =
      some ((List.range (n * l)).map (fun k =>
        (f.gain * (tdmsStream f.recI f.nSamplesPerRecord ((s - 1) * l + k) : ℚ),
         f.gain * (tdmsStream f.recQ f.nSamplesPerRecord ((s - 1) * l + k) : ℚ)))) := by
  rw [read_tdms_spec f st n l s hother hfirst hspr hlenI hlenQ hguard]

/-- C4 (witness): a window spanning records 2-3 of a 6-record file
(`spr = 2`, request `(L,N,S) = (2,2,2)`, so `start_record = 2`) returns the
samples from the correct intra-record offset. -/
theorem tdms_trim_slice_witness :
    (read_tdms tdmsFileC tdmsSt0 2 2 2).data_array =
      some [(4, 200), (5, 201), (6, 300), (7, 301)] := by
  rw [tdms_trim_slice tdmsFileC tdmsSt0 2 2 2 (by decide) (by decide) (by decide)
    (fun r _ => rfl) (fun r _ => rfl) (by decide) (by decide)]
  rw [show List.range (2 * 2) = [0, 1, 2, 3] from by decide]
  simp only [List.map_cons, List.map_nil]
  norm_num [tdmsStream, tdmsFileC, List.getD]

/-- C6 (counterexample): an out-of-range request on a concrete file does not
leave the reader state unchanged — `lframes`/`nframes` are overwritten before
the guard, so the resulting state differs from the initial one. -/
theorem tdms_range_noop_cex :
    tdmsFileB.nRecordsPerFile < tdms_start_record 4 1 tdmsFileB.nSamplesPerRecord +
      tdms_n_records 2 4 1 tdmsFileB.nSamplesPerRecord ∧
    read_tdms tdmsFileB tdmsSt7 2 4 1 ≠ tdmsSt7 := by
  decide

/-- C6 (amended): when the computed record window exceeds `records_per_file`,
`read_tdms` produces no buffer and leaves all reader state unchanged except
`lframes` and `nframes`, which are set to the requested values before the
guard. -/
theorem tdms_range_noop (f : TdmsFile) (st : TdmsState) (n l s : ℕ)
    (h : f.nRecordsPerFile < tdms_start_record l s f.nSamplesPerRecord +
        tdms_n_records n l s f.nSamplesPerRecord) :
    read_tdms f st n l s = { st with lframes := l, nframes := n } := by
  simp only [read_tdms]
  rw [if_pos h]

/-- C6 (witness): the no-op branch evaluated on a concrete out-of-range
request. -/
theorem tdms_range_noop_witness :
    read_tdms tdmsFileB tdmsSt0 2 4 1 = { tdmsSt0 with lframes := 4, nframes := 2 } :=
  tdms_range_noop tdmsFileB tdmsSt0 2 4 1 (by decide)

/-- C7 (counterexample): for `samples_per_unit = 1024` and
`(L,N,S) = (1024,2,2)` the code computes `n_records = 3`, not the claimed
`units_needed = 2`. -/
theorem window_addressor_1024_cex : tdms_n_records 2 1024 2 1024 ≠ 2 := by
  decide

/-- C7 (amended): for `samples_per_unit = 1024` and `(L,N,S) = (1024,2,2)`
the 0-based start unit `start_offset div 1024` is `1` (the code's 1-based
`start_record` is `2`), and the computed record count is `3`: the `+ 1` in
`n_records` over-allocates one record for this exactly-aligned request. -/
theorem window_addressor_1024 :
    tdms_start_n_bytes 1024 2 / 1024 = 1 ∧
    tdms_start_record 1024 2 1024 = 2 ∧
    tdms_n_records 2 1024 2 1024 = 3 := by
  decide

def tcapSt0 : TcapState :=
  { lframes := 0, nframes := 0, fs := 0, center := 0, scale := 0, span := 0,
    nframes_tot := 0, number_samples := 0, date_time := none, tcap_pio := none,
    tcap_scalers := none, data_array := none }

/-- A file of exactly `K = 15625` blocks, all bytes zero. -/
def tcapGood : TcapFile := { filesize := 15625 * (88 + 2 ^ 17), byteAt := fun _ => 0 }

/-- A file of `K + 1` blocks. -/
def tcapBad : TcapFile := { filesize := 15626 * (88 + 2 ^ 17), byteAt := fun _ => 0 }

/-- C5 (confirmed): `read_tcap` checks `filesize == 15625 * (88 + 2^17)` before
doing anything else; on mismatch it returns with only `lframes`/`nframes`
assigned and no data produced, and on exact match it proceeds and produces a
`data_array` from the copy loop. -/
theorem tcap_size_invariant (f : TcapFile) (st : TcapState) (n l s : ℕ) :
    (f.filesize ≠ 15625 * (88 + 2 ^ 17) →
      read_tcap f st n l s = { st with lframes := l, nframes := n }) ∧
    (f.filesize = 15625 * (88 + 2 ^ 17) →
      (read_tcap f st n l s).data_array =
        some (tcap_complex (tcapCopy f.byteAt (88 + 4 * (s - 1) * l) (4 * n * l)))) := by
  constructor
  · intro h
    simp only [read_tcap]
    rw [if_pos h]
  · intro h
    simp only [read_tcap]
    rw [if_neg (by simp [h])]

/-- C5 (witness): a `K+1`-block file aborts with no data; a `K`-block file
proceeds and yields a buffer. -/
theorem tcap_size_invariant_witness :
    read_tcap tcapBad tcapSt0 1 1 1 = { tcapSt0 with lframes := 1, nframes := 1 } ∧
    (read_tcap tcapGood tcapSt0 1 1 1).data_array = some [(0, 0)] := by
  constructor
  · exact (tcap_size_invariant tcapBad tcapSt0 1 1 1).1 (by decide)
  · rw [(tcap_size_invariant tcapGood tcapSt0 1 1 1).2 rfl]
    rw [show tcapCopy tcapGood.byteAt (88 + 4 * (1 - 1) * 1) (4 * 1 * 1) = [0, 0, 0, 0]
      from by decide]
    rw [tcap_complex, show ([0, 0, 0, 0] : List ℕ).length / 4 = 1 from rfl,
      show List.range 1 = [0] from rfl]
    simp only [List.map_cons, List.map_nil]
    norm_num [List.getD, toInt16]

/-- C3 (counterexample): a window starting at payload offset
`4*(S-1)*L = 262144` (inside the third block) copies the wrong bytes: the
initial seek `88 + 4*(S-1)*L` accounts for only one block header, so the copy
does not return the requested payload byte range.  With the identity file the
copied values are the positions actually read, and they differ from the
positions of the requested payload bytes. -/
theorem tcap_copy_window_cex :
    tcapCopy (fun p => p) (88 + 4 * (65537 - 1) * 1) (4 * 1 * 1) ≠
      (List.range (4 * 1 * 1)).map (fun k => tcapPayloadPos (4 * (65537 - 1) * 1 + k)) := by
  decide

/-- C3 (amended): provided the window's start offset `4*(S-1)*L` does not pass
the first block's payload (`≤ 131072`), the copy loop returns exactly the
requested byte range — payload bytes `4*(S-1)*L .. 4*(S-1)*L + 4*N*L` —
skipping exactly one 88-byte header at every block boundary it crosses, the
crossing detected by the position modulo `88 + 131072`.  For larger start
offsets the initial seek accounts for only one header and the copy starts at
the wrong byte. -/
theorem tcap_copy_window (file : ℕ → ℕ) (n l s : ℕ)
    (hstart : 4 * (s - 1) * l ≤ 131072) :
    tcapCopy file (88 + 4 * (s - 1) * l) (4 * n * l) =
      (List.range (4 * n * l)).map (fun k => file (tcapPayloadPos (4 * (s - 1) * l + k))) :=
  tcapCopy_eq file (4 * n * l) (4 * (s - 1) * l) _ (tcapStart _ hstart)

/-- C3 (witness): a window starting exactly at the first block boundary
(`4*(S-1)*L = 131072`) crosses one header: the skip fires and the copied
bytes are the payload bytes at positions `131248 ..`. -/
theorem tcap_copy_window_witness :
    tcapCopy (fun p => p) (88 + 4 * (32769 - 1) * 1) (4 * 1 * 1) =
      [131248, 131249, 131250, 131251] := by
  rw [tcap_copy_window (fun p => p) 1 1 32769 (by norm_num)]
  decide

/-- C8 (confirmed): the scale factor applied to every IQT sample is exactly
`sqrt(10 ** ((gain_offset + max_input_level + level_offset) / 10) / 20 * 2)`,
computed from the three header-declared gain parameters: it is nonnegative and
its square is the radicand. -/
theorem iqt_scale_factor (f : IqtFile) (n l s : ℕ) :
    read_iqt_data f n l s = (read_iqt_raw f n l s).map
      (fun p => (iqt_scale f.header * (p.1 : ℝ), iqt_scale f.header * (p.2 : ℝ))) ∧
    0 ≤ iqt_scale f.header ∧
    iqt_scale f.header ^ 2 =
      (10 : ℝ) ^ (((f.header.gain_offset + f.header.max_input_level +
        f.header.level_offset : ℚ) : ℝ) / 10) / 20 * 2 := by
  refine ⟨rfl, Real.sqrt_nonneg _, ?_⟩
  have harg : (0 : ℝ) ≤ (10 : ℝ) ^ (((f.header.gain_offset + f.header.max_input_level +
      f.header.level_offset : ℚ) : ℝ) / 10) / 20 * 2 := by
    have h := Real.rpow_pos_of_pos (show (0 : ℝ) < 10 by norm_num)
      (((f.header.gain_offset + f.header.max_input_level +
        f.header.level_offset : ℚ) : ℝ) / 10)
    linarith
  rw [iqt_scale, Real.sq_sqrt harg]

/-- Exact BCD decoding of the TFP register, following the claim's words:
nibble values are the true high/low nibbles `b / 16` and `b % 16` of bytes
3-11, combined as `days = dh*100 + dt*10 + du`, `hours = ht*10 + hu`,
`minutes = mt*10 + mu`, `seconds = st*10 + su + Σ sem_k * 10^-k`, and
`epoch = seconds + 60*(minutes + 60*(hours + 24*days))`.  This is the
specification-side definition compared against `parse_tcap_tfp`. -/
def bcd_epoch (b3 b4 b5 b6 b7 b8 b9 b10 b11 : ℕ) : ℚ :=
  (((b7 / 16) * 10 + b7 % 16 : ℕ) : ℚ) +
    ((b8 / 16 : ℕ) : ℚ) / 10 + ((b8 % 16 : ℕ) : ℚ) / 100 +
    ((b9 / 16 : ℕ) : ℚ) / 1000 + ((b9 % 16 : ℕ) : ℚ) / 10000 +
    ((b10 / 16 : ℕ) : ℚ) / 100000 + ((b10 % 16 : ℕ) : ℚ) / 1000000 +
    ((b11 / 16 : ℕ) : ℚ) / 10000000 +
    60 * ((((b6 / 16) * 10 + b6 % 16 : ℕ) : ℚ) +
      60 * ((((b5 / 16) * 10 + b5 % 16 : ℕ) : ℚ) +
        24 * (((b3 % 16) * 100 + (b4 / 16) * 10 + b4 % 16 : ℕ) : ℚ)))

/-- Conditions under which the `0x17` masks of `parse_tcap_tfp` reproduce the
true nibble values: every decoded digit nibble is at most 7, and every byte
whose low nibble is decoded has an even high nibble (bit 4 of the byte leaks
into the low-nibble extraction `b & 0x17`). -/
@[reducible] def tfpWellFormed (b3 b4 b5 b6 b7 b8 b9 b10 b11 : ℕ) : Prop :=
  b3 < 256 ∧ b3 % 16 ≤ 7 ∧ b3 / 16 % 2 = 0 ∧
  b4 < 256 ∧ b4 % 16 ≤ 7 ∧ b4 / 16 ≤ 7 ∧ b4 / 16 % 2 = 0 ∧
  b5 < 256 ∧ b5 % 16 ≤ 7 ∧ b5 / 16 ≤ 7 ∧ b5 / 16 % 2 = 0 ∧
  b6 < 256 ∧ b6 % 16 ≤ 7 ∧ b6 / 16 ≤ 7 ∧ b6 / 16 % 2 = 0 ∧
  b7 < 256 ∧ b7 % 16 ≤ 7 ∧ b7 / 16 ≤ 7 ∧ b7 / 16 % 2 = 0 ∧
  b8 < 256 ∧ b8 % 16 ≤ 7 ∧ b8 / 16 ≤ 7 ∧ b8 / 16 % 2 = 0 ∧
  b9 < 256 ∧ b9 % 16 ≤ 7 ∧ b9 / 16 ≤ 7 ∧ b9 / 16 % 2 = 0 ∧
  b10 < 256 ∧ b10 % 16 ≤ 7 ∧ b10 / 16 ≤ 7 ∧ b10 / 16 % 2 = 0 ∧
  b11 < 256 ∧ b11 / 16 ≤ 7

/-- C9 (code bug): the decoder masks nibbles with `0x17`, not `0x0F`, and
performs no BCD validation.  The valid BCD digit 9 is mangled to 1 (a register
with seconds-units nibble 9 decodes to 1 second), and the invalid nibble 0xF
is silently accepted as 7 — nothing is flagged. -/
theorem tfp_bcd_mask_bug :
    tfpLo 9 = 1 ∧ tfpLo 15 = 7 ∧
    parse_tcap_tfp [0, 0, 0, 0, 0, 0, 0, 9, 0, 0, 0, 0] = 1 := by
  refine ⟨by decide, by decide, ?_⟩
  have hz : tfpHi 0 = 0 := by decide
  have hz2 : tfpLo 0 = 0 := by decide
  have hd : tfpDays [0, 0, 0, 0, 0, 0, 0, 9, 0, 0, 0, 0] = 0 := by decide
  have hh : tfpHours [0, 0, 0, 0, 0, 0, 0, 9, 0, 0, 0, 0] = 0 := by decide
  have hm : tfpMinutes [0, 0, 0, 0, 0, 0, 0, 9, 0, 0, 0, 0] = 0 := by decide
  have hs : tfpSeconds [0, 0, 0, 0, 0, 0, 0, 9, 0, 0, 0, 0] = 1 := by
    show ((tfpHi 9 * 10 + tfpLo 9 : ℕ) : ℚ) + (tfpHi 0 : ℚ) / 10 + (tfpLo 0 : ℚ) / 100 +
      (tfpHi 0 : ℚ) / 1000 + (tfpLo 0 : ℚ) / 10000 + (tfpHi 0 : ℚ) / 100000 +
      (tfpLo 0 : ℚ) / 1000000 + (tfpHi 0 : ℚ) / 10000000 = 1
    rw [hz, hz2, show tfpLo 9 = 1 from by decide, show tfpHi 9 = 0 from by decide]
    norm_num
  simp only [parse_tcap_tfp]
  rw [hd, hh, hm, hs]
  norm_num

/-- C10 (counterexample): the register with byte 6 equal to `0x30`
(minutes = 30, all digit nibbles within 0-7) decodes to 2760 epoch seconds
instead of the exact BCD value 1800: the mask `0x17` keeps bit 4 of the byte,
so the odd tens digit 3 leaks 16 into the units digit. -/
theorem tfp_bcd_decode_cex :
    48 / 16 ≤ 7 ∧ 48 % 16 ≤ 7 ∧
    parse_tcap_tfp [0, 0, 0, 0, 0, 0, 48, 0, 0, 0, 0, 0] = 2760 ∧
    bcd_epoch 0 0 0 48 0 0 0 0 0 = 1800 ∧
    parse_tcap_tfp [0, 0, 0, 0, 0, 0, 48, 0, 0, 0, 0, 0] ≠
      bcd_epoch 0 0 0 48 0 0 0 0 0 := by
  have hz : tfpHi 0 = 0 := by decide
  have hz2 : tfpLo 0 = 0 := by decide
  have hp : parse_tcap_tfp [0, 0, 0, 0, 0, 0, 48, 0, 0, 0, 0, 0] = 2760 := by
    have hd : tfpDays [0, 0, 0, 0, 0, 0, 48, 0, 0, 0, 0, 0] = 0 := by decide
    have hh : tfpHours [0, 0, 0, 0, 0, 0, 48, 0, 0, 0, 0, 0] = 0 := by decide
    have hm : tfpMinutes [0, 0, 0, 0, 0, 0, 48, 0, 0, 0, 0, 0] = 46 := by decide
    have hs : tfpSeconds [0, 0, 0, 0, 0, 0, 48, 0, 0, 0, 0, 0] = 0 := by
      show ((tfpHi 0 * 10 + tfpLo 0 : ℕ) : ℚ) + (tfpHi 0 : ℚ) / 10 + (tfpLo 0 : ℚ) / 100 +
        (tfpHi 0 : ℚ) / 1000 + (tfpLo 0 : ℚ) / 10000 + (tfpHi 0 : ℚ) / 100000 +
        (tfpLo 0 : ℚ) / 1000000 + (tfpHi 0 : ℚ) / 10000000 = 0
      rw [hz, hz2]
      norm_num
    simp only [parse_tcap_tfp]
    rw [hd, hh, hm, hs]
    norm_num
  have hb : bcd_epoch 0 0 0 48 0 0 0 0 0 = 1800 := by
    unfold bcd_epoch
    norm_num
  refine ⟨by decide, by decide, hp, hb, ?_⟩
  rw [hp, hb]
  norm_num

/-- C10 (amended): for every register whose digit nibbles are all at most 7
AND whose decoded bytes all carry an even high nibble (an even status nibble
on byte 3 and even tens digits on bytes 4-10 — without this the `0x17` mask
leaks bit 4 of the byte into the low nibble), `parse_tcap_tfp` decodes the
exact BCD value `seconds + 60*(minutes + 60*(hours + 24*days))`; and the mask
does not preserve any nibble value in 8-15. -/
theorem tfp_bcd_decode :
    (∀ b0 b1 b2 b3 b4 b5 b6 b7 b8 b9 b10 b11 : ℕ,
      tfpWellFormed b3 b4 b5 b6 b7 b8 b9 b10 b11 →
      parse_tcap_tfp [b0, b1, b2, b3, b4, b5, b6, b7, b8, b9, b10, b11] =
        bcd_epoch b3 b4 b5 b6 b7 b8 b9 b10 b11) ∧
    (∀ v : ℕ, v < 16 → 8 ≤ v → tfpHi (16 * v) ≠ v) := by
  constructor
  · intro b0 b1 b2 b3 b4 b5 b6 b7 b8 b9 b10 b11 hwf
    obtain ⟨h3a, h3b, h3c, h4a, h4b, h4c, h4d, h5a, h5b, h5c, h5d,
      h6a, h6b, h6c, h6d, h7a, h7b, h7c, h7d, h8a, h8b, h8c, h8d,
      h9a, h9b, h9c, h9d, hAa, hAb, hAc, hAd, hBa, hBb⟩ := hwf
    have hd : tfpDays [b0, b1, b2, b3, b4, b5, b6, b7, b8, b9, b10, b11] =
        b3 % 16 * 100 + b4 / 16 * 10 + b4 % 16 := by
      show tfpLo b3 * 100 + tfpHi b4 * 10 + tfpLo b4 = _
      rw [tfpLo_eq b3 h3a h3b h3c, tfpHi_eq b4 h4a h4c, tfpLo_eq b4 h4a h4b h4d]
    have hh : tfpHours [b0, b1, b2, b3, b4, b5, b6, b7, b8, b9, b10, b11] =
        b5 / 16 * 10 + b5 % 16 := by
      show tfpHi b5 * 10 + tfpLo b5 = _
      rw [tfpHi_eq b5 h5a h5c, tfpLo_eq b5 h5a h5b h5d]
    have hm : tfpMinutes [b0, b1, b2, b3, b4, b5, b6, b7, b8, b9, b10, b11] =
        b6 / 16 * 10 + b6 % 16 := by
      show tfpHi b6 * 10 + tfpLo b6 = _
      rw [tfpHi_eq b6 h6a h6c, tfpLo_eq b6 h6a h6b h6d]
    have hs : tfpSeconds [b0, b1, b2, b3, b4, b5, b6, b7, b8, b9, b10, b11] =
        ((b7 / 16 * 10 + b7 % 16 : ℕ) : ℚ) +
          ((b8 / 16 : ℕ) : ℚ) / 10 + ((b8 % 16 : ℕ) : ℚ) / 100 +
          ((b9 / 16 : ℕ) : ℚ) / 1000 + ((b9 % 16 : ℕ) : ℚ) / 10000 +
          ((b10 / 16 : ℕ) : ℚ) / 100000 + ((b10 % 16 : ℕ) : ℚ) / 1000000 +
          ((b11 / 16 : ℕ) : ℚ) / 10000000 := by
      show ((tfpHi b7 * 10 + tfpLo b7 : ℕ) : ℚ) + (tfpHi b8 : ℚ) / 10 +
        (tfpLo b8 : ℚ) / 100 + (tfpHi b9 : ℚ) / 1000 + (tfpLo b9 : ℚ) / 10000 +
        (tfpHi b10 : ℚ) / 100000 + (tfpLo b10 : ℚ) / 1000000 +
        (tfpHi b11 : ℚ) / 10000000 = _
      rw [tfpHi_eq b7 h7a h7c, tfpLo_eq b7 h7a h7b h7d, tfpHi_eq b8 h8a h8c,
        tfpLo_eq b8 h8a h8b h8d, tfpHi_eq b9 h9a h9c, tfpLo_eq b9 h9a h9b h9d,
        tfpHi_eq b10 hAa hAc, tfpLo_eq b10 hAa hAb hAd, tfpHi_eq b11 hBa hBb]
    simp only [parse_tcap_tfp]
    rw [hd, hh, hm, hs]
    rfl
  · decide

/-- C10 (witness): the register encoding day 005, hour 25, minute 43, second
21.2345677 (all tens digits even) decodes exactly, and the mask destroys the
nibble value 9. -/
theorem tfp_bcd_decode_witness :
    parse_tcap_tfp [0, 0, 0, 5, 5, 37, 67, 33, 35, 69, 103, 112] =
      bcd_epoch 5 5 37 67 33 35 69 103 112 ∧
    tfpHi (16 * 9) ≠ 9 := by
  constructor
  · exact tfp_bcd_decode.1 0 0 0 5 5 37 67 33 35 69 103 112 (by decide)
  · exact tfp_bcd_decode.2 9 (by decide) (by decide)
